import Mathlib

/-!
Verification of the capaNCDT controller client (src/controller.py).

The development shallow-embeds the two protocol components of the module:

* `ControlSocket.command` (text command channel): modelled by `pyRemoveCRLF`,
  `commandClassify` and `command`.
* `DataSocket.inspect_header` and `DataSocket.get_data` (binary data channel):
  modelled by `inspect_header`, `fill`, `procFrames`, `getDataLoop`, `get_data`.

Bytes are `Nat` (each < 256), byte strings are `List Nat`.  The socket is
modelled as a list of chunks: each `recv` call yields the next chunk, and a
`recv` on an exhausted chunk list models `socket.timeout`.  Machine integers
are decoded explicitly (little endian, with explicit signed reinterpretation
mirroring the struct format codes of the source: i, h are signed, q signed).
-/

namespace Capa

/-! ### Little-endian field decoding (struct.unpack format `<iiiqihhi`) -/

/-- Unsigned 16-bit little-endian read at offset `off` (struct code h before
sign reinterpretation). -/
def u16LE (b : List Nat) (off : Nat) : Nat :=
  b.getD off 0 + 256 * b.getD (off + 1) 0

/-- Unsigned 64-bit little-endian read at offset `off` (struct code q before
sign reinterpretation). -/
def u64LE (b : List Nat) (off : Nat) : Nat :=
  b.getD off 0 + 256 * b.getD (off + 1) 0 + 256 ^ 2 * b.getD (off + 2) 0 +
  256 ^ 3 * b.getD (off + 3) 0 + 256 ^ 4 * b.getD (off + 4) 0 +
  256 ^ 5 * b.getD (off + 5) 0 + 256 ^ 6 * b.getD (off + 6) 0 +
  256 ^ 7 * b.getD (off + 7) 0

/-- Signed reinterpretation of a 16-bit value (struct code h). -/
def s16 (u : Nat) : Int :=
  if u < 2 ^ 15 then (u : Int) else (u : Int) - 2 ^ 16

/-- Signed reinterpretation of a 64-bit value (struct code q). -/
def s64 (u : Nat) : Int :=
  if u < 2 ^ 63 then (u : Int) else (u : Int) - 2 ^ 64

/-- Bit-count helper with explicit descent fuel; `popcountAux f n` counts the
set bits of `n` provided `n < 2 ^ f`. -/
def popcountAux : Nat → Nat → Nat
  | _, 0 => 0
  | 0, _ => 0
  | f + 1, n => n % 2 + popcountAux f (n / 2)

/-- Number of set bits of a value below `2 ^ 64`.  This models the source
line that formats the channel field as a 64-wide binary string and counts the
set digits (for a negative signed field Python formats a minus sign followed
by the binary magnitude, so the count is over the absolute value; the caller
passes `Int.natAbs`). -/
def popcount64 (n : Nat) : Nat := popcountAux 64 n

/-! ### Python slice semantics

`get_data` slices its byte buffer with `data_stream[32:32 + payload_size]` and
`data_stream[32 + payload_size:]` where `payload_size` is a product of two
signed shorts and hence an arbitrary `Int`.  `pyNorm` is the Python index
normalization for slices: negative indices count from the end, then the index
is clamped to `[0, len]`. -/

def pyNorm (len : Nat) (i : Int) : Nat :=
  if 0 ≤ i then min i.toNat len else ((len : Int) + i).toNat

/-- Python `s[a:b]`. -/
def pySlice (s : List Nat) (a b : Int) : List Nat :=
  (s.take (pyNorm s.length b)).drop (pyNorm s.length a)

/-- Python `s[a:]`. -/
def pySliceFrom (s : List Nat) (a : Int) : List Nat :=
  s.drop (pyNorm s.length a)

/-! ### Sample decoding

`np.frombuffer(..., data_type)` with the little-endian integer dtype of the
module; samples on the wire are 4-byte signed little-endian integers (module
docstring: each frame holds `n * 4` bytes, `n * int`). -/

/-- One signed 32-bit little-endian sample. -/
def int32LE (b0 b1 b2 b3 : Nat) : Int :=
  let u : Nat := b0 + 256 * b1 + 256 ^ 2 * b2 + 256 ^ 3 * b3
  if u < 2 ^ 31 then (u : Int) else (u : Int) - 2 ^ 32

/-- Decode a byte string into consecutive 4-byte samples. -/
def toInt32s : List Nat → List Int
  | b0 :: b1 :: b2 :: b3 :: rest => int32LE b0 b1 b2 b3 :: toInt32s rest
  | _ => []

/-! ### Header decoding: `DataSocket.inspect_header` -/

/-- Result tuple of `inspect_header`. -/
structure Header where
  nrChannels : Nat
  nrFrames : Int
  bytesPerFrame : Int
  payloadSize : Int
  deriving DecidableEq, Repr

/-- Model of `DataSocket.inspect_header`: unpacks `data_stream[0:32]` with
struct format `<iiiqihhi` and derives the channel count from tuple slot 3
(the 8-byte field at offset 12), `bytes_per_frame` from tuple slot 5 (the
signed short at offset 24), `nr_of_frames` from tuple slot 6 (the signed
short at offset 26), and `payload_size = bytes_per_frame * nr_of_frames`. -/
def inspect_header (b : List Nat) : Header :=
  let h := b.take 32
  let channelField := s64 (u64LE h 12)
  let nrChannels := popcount64 channelField.natAbs
  let bytesPerFrame := s16 (u16LE h 24)
  let nrFrames := s16 (u16LE h 26)
  ⟨nrChannels, nrFrames, bytesPerFrame, bytesPerFrame * nrFrames⟩

/-! ### The data acquisition loop: `DataSocket.get_data`

The socket is a list of chunks; `fill` models the two inner
`while len(data_stream) < threshold: data_stream += recv()` loops: it keeps
appending chunks to the buffer until the threshold is met (first component
`true`) or the chunk list is exhausted, which models `socket.timeout` on the
next `recv` (first component `false`). -/

def fill (threshold : Int) : List Nat → List (List Nat) →
    Bool × List Nat × List (List Nat)
  | buf, chunks =>
    if (buf.length : Int) < threshold then
      match chunks with
      | [] => (false, buf, [])
      | c :: rest => fill threshold (buf ++ c) rest
    else (true, buf, chunks)

/-- Exceptions that can escape `get_data`.  `channelError` is the
`DeviceError` raised by the channel-count check; `timeoutError` is a
`socket.timeout` escaping the uncaught payload read loop; `valueError` is
`np.frombuffer` on a buffer whose size is not a multiple of the item size;
`indexError` is fancy indexing with a channel index out of bounds;
`fuelOut` marks inputs on which the Python loop would not terminate. -/
inductive GDError where
  | channelError
  | timeoutError
  | valueError
  | indexError
  | fuelOut
  deriving DecidableEq, Repr

/-- Return value of `get_data`: either the 2-d array (as a list of rows) or,
when exactly one channel was requested on the normal exit path, the flat 1-d
array `data.T[0]`. -/
inductive GDReturn where
  | matrix (rows : List (List Int))
  | flat (xs : List Int)
  deriving DecidableEq, Repr

deriving instance DecidableEq for Except

/-- Observable outcome of one `get_data` call: the returned value or raised
exception, together with the value of the local `data_stream` buffer and the
not-yet-delivered chunks at the moment of return or raise. -/
structure GDOut where
  result : Except GDError GDReturn
  buffer : List Nat
  chunks : List (List Nat)
  deriving DecidableEq, Repr

/-- Model of Python `max(channels)` for a nonempty channel list. -/
def maxList (l : List Nat) : Nat := l.foldr max 0

/-- One frame projection:
`np.frombuffer(frame, data_type)[channels]`.  Fails like `np.frombuffer` when
the frame size is not a multiple of the 4-byte item size, and like numpy
fancy indexing when a requested channel index is out of range. -/
def rowOf (channels : List Nat) (frame : List Nat) : Except GDError (List Int) :=
  if frame.length % 4 = 0 then
    let samples := toInt32s frame
    if channels.all (fun c => c < samples.length) then
      .ok (channels.map (fun c => samples.getD c 0))
    else .error .indexError
  else .error .valueError

/-- The `for i in range(nr_of_frames)` loop of `get_data`: writes one row per
frame into `data` at position `received`, stopping early (break) once
`received` reaches `n`. -/
def procFrames (channels : List Nat) (payload : List Nat) (bpf : Int) (n : Nat) :
    List Nat → List (List Int) → Nat → Except GDError (List (List Int) × Nat)
  | [], data, received => .ok (data, received)
  | i :: is, data, received =>
    if received < n then
      match rowOf channels (pySlice payload (i * bpf) ((i + 1) * bpf)) with
      | .error e => .error e
      | .ok row => procFrames channels payload bpf n is (data.set received row) (received + 1)
    else .ok (data, received)

/-- Transpose of a rectangular row-major array with `w` columns
(numpy `data.T`). -/
def transposeW (w : Nat) (rows : List (List Int)) : List (List Int) :=
  (List.range w).map (fun j => rows.map (fun r => r.getD j 0))

/-- The return statement of `get_data`: `data.T[0]` if exactly one channel was
requested, else `data.T`. -/
def finalize (channels : List Nat) (data : List (List Int)) : GDReturn :=
  if channels.length = 1 then .flat (data.map (fun r => r.getD 0 0))
  else .matrix (transposeW channels.length data)

/-- The `while received_data_points < data_points` loop of `get_data`,
with one unit of fuel per iteration.  On a `socket.timeout` while fewer than
32 bytes are buffered the loop returns the preallocated `data` array as is
(`return data`).  After the header is decoded, the channel-count check may
raise `DeviceError`; the payload read loop has no timeout handler, so an
exhausted reader there raises; then the payload is sliced, the frame loop
runs, and the consumed packet is dropped from the front of the buffer. -/
def getDataLoop (n : Nat) (channels : List Nat) :
    Nat → List (List Int) → Nat → List Nat → List (List Nat) → GDOut
  | 0, _, _, buf, chunks => ⟨.error .fuelOut, buf, chunks⟩
  | fuel + 1, data, received, buf, chunks =>
    if received < n then
      let r1 := fill 32 buf chunks
      if r1.1 then
        let buf1 := r1.2.1
        let hd := inspect_header buf1
        if hd.nrChannels < maxList channels + 1 then
          ⟨.error .channelError, buf1, r1.2.2⟩
        else
          let r2 := fill (32 + hd.payloadSize) buf1 r1.2.2
          if r2.1 then
            let buf2 := r2.2.1
            let payload := pySlice buf2 32 (32 + hd.payloadSize)
            match procFrames channels payload hd.bytesPerFrame n
                (List.range hd.nrFrames.toNat) data received with
            | .error e => ⟨.error e, buf2, r2.2.2⟩
            | .ok (data', received') =>
                getDataLoop n channels fuel data' received'
                  (pySliceFrom buf2 (32 + hd.payloadSize)) r2.2.2
          else ⟨.error .timeoutError, r2.2.1, r2.2.2⟩
      else ⟨.ok (.matrix data), r1.2.1, r1.2.2⟩
    else ⟨.ok (finalize channels data), buf, chunks⟩

/-- Fuel that suffices for every terminating run: each loop iteration either
emits at least one sample or consumes at least 32 buffered bytes. -/
def defaultFuel (n : Nat) (chunks : List (List Nat)) : Nat :=
  n + (chunks.map List.length).sum + 2

/-- Model of `DataSocket.get_data`: requests `n` data points on `channels`
from a socket that will deliver `chunks` and then time out.  The `data`
array starts as `np.zeros((data_points, len(channels)))` and the local
`data_stream` buffer starts empty. -/
def get_data (n : Nat) (channels : List Nat) (chunks : List (List Nat)) : GDOut :=
  getDataLoop n channels (defaultFuel n chunks)
    (List.replicate n (List.replicate channels.length 0)) 0 [] chunks

/-! ### The command channel: `ControlSocket.command` -/

/-- Failure classification of one command exchange.  `connectionError` is the
`DeviceError` wrapping an `OSError`/`EOFError` from the transport; the other
three are the response classifications (`$UNKNOWN COMMAND`,
`$WRONG PARAMETER`, and the final "Unexpected response" raise).  The
formatted message text of the source exceptions is elided. -/
inductive CmdError where
  | connectionError
  | unknownCommand
  | wrongParameter
  | malformed
  deriving DecidableEq, Repr

/-- Characters removed by `com.replace` and `response.strip` in the source. -/
def isCRLFChar (c : Char) : Bool := c = '\r' || c = '\n'

/-- Python `s.strip("\r\n")`: removes any run of CR/LF characters from both
ends of the string. -/
def pyStrip (s : List Char) : List Char :=
  ((s.dropWhile isCRLFChar).reverse.dropWhile isCRLFChar).reverse

/-- The `for seq in "\r\n": com = com.replace(seq, "")` loop: removes every
CR and LF character from the command. -/
def pyRemoveCRLF (s : List Char) : List Char :=
  s.filter (fun c => !isCRLFChar c)

/-- Response classification of `ControlSocket.command` after the reply bytes
have been read: strip CR/LF from both ends, require the `$` + echoed-command
prefix, then in order test for a trailing `OK` (success, returning the middle
content), the two error literals, and otherwise fall through to the
"Unexpected response" raise.  A failed prefix check falls through to the same
raise. -/
def commandClassify (com : List Char) (raw : List Char) : Except CmdError (List Char) :=
  let response := pyStrip raw
  if ('$' :: com).isPrefixOf response then
    let r := response.drop (com.length + 1)
    if ['O', 'K'].isSuffixOf r then .ok (r.take (r.length - 2))
    else if r = "$UNKNOWN COMMAND".toList then .error .unknownCommand
    else if r = "$WRONG PARAMETER".toList then .error .wrongParameter
    else .error .malformed
  else .error .malformed

/-- Model of `ControlSocket.command`: the command is sanitized and written,
and after the settle interval one opportunistic `read_eager` yields either a
transport failure (`none`, mapped to the `DeviceError` wrapping
`OSError`/`EOFError`) or some byte string (possibly empty), which is then
classified. -/
def command (com : List Char) (readResult : Option (List Char)) :
    Except CmdError (List Char) :=
  let c := pyRemoveCRLF com
  match readResult with
  | none => .error .connectionError
  | some raw => commandClassify c raw

/-- Classification pipeline as worded by the specification claim: identical
to `commandClassify` except that only TRAILING CR/LF characters are stripped
from the raw reply before the prefix check. -/
def claimClassify (com : List Char) (raw : List Char) : Except CmdError (List Char) :=
  let response := (raw.reverse.dropWhile isCRLFChar).reverse
  if ('$' :: com).isPrefixOf response then
    let r := response.drop (com.length + 1)
    if ['O', 'K'].isSuffixOf r then .ok (r.take (r.length - 2))
    else if r = "$UNKNOWN COMMAND".toList then .error .unknownCommand
    else if r = "$WRONG PARAMETER".toList then .error .wrongParameter
    else .error .malformed
  else .error .malformed

/-- Amended classification pipeline: as the claim, but stripping CR/LF from
BOTH ends of the raw reply (Python `strip` semantics). -/
def amendedClassify (com : List Char) (raw : List Char) : Except CmdError (List Char) :=
  let response := pyStrip raw
  if ('$' :: com).isPrefixOf response then
    let r := response.drop (com.length + 1)
    if ['O', 'K'].isSuffixOf r then .ok (r.take (r.length - 2))
    else if r = "$UNKNOWN COMMAND".toList then .error .unknownCommand
    else if r = "$WRONG PARAMETER".toList then .error .wrongParameter
    else .error .malformed
  else .error .malformed

/-! ### Packets

`IsPacket p` says `p` is one complete header-plus-payload packet: the header
commits to a (necessarily nonnegative) payload size and `p` consists of the
32-byte header followed by exactly that many payload bytes. -/

/-- One complete header+payload packet. -/
def IsPacket (p : List Nat) : Prop :=
  0 ≤ (inspect_header p).payloadSize ∧
    (p.length : Int) = 32 + (inspect_header p).payloadSize

instance (p : List Nat) : Decidable (IsPacket p) := by
  unfold IsPacket; infer_instance

/-- A byte stream that is a concatenation of complete packets. -/
inductive IsPacketStream : List Nat → Prop
  | nil : IsPacketStream []
  | cons (p rest : List Nat) : IsPacket p → IsPacketStream rest →
      IsPacketStream (p ++ rest)

/-! ### Concrete inputs used by the claims -/

/-- A 56-byte packet laid out per the documented wire format (module
docstring and spec section 6): channel presence field `0b0101` (channels 0
and 1 present) at offset 12, frame count 3 at offset 24, bytes per frame 8 at
offset 26, and three 8-byte frames holding the int32 pairs (10,20), (11,21),
(12,22). -/
def pktDoc : List Nat :=
  [0, 0, 0, 0, 0, 0, 0, 0, 0, 0, 0, 0,
   5, 0, 0, 0, 0, 0, 0, 0,
   0, 0, 0, 0,
   3, 0,
   8, 0,
   0, 0, 0, 0] ++
  [10, 0, 0, 0, 20, 0, 0, 0,
   11, 0, 0, 0, 21, 0, 0, 0,
   12, 0, 0, 0, 22, 0, 0, 0]

/-- A 32-byte header as `get_data` itself reads it: channel field `1`
(one channel), bytes per frame 4 at offset 24, frame count 1 at offset 26,
so the header commits to a 4-byte payload that is never supplied. -/
def hdrCommit : List Nat :=
  [0, 0, 0, 0, 0, 0, 0, 0, 0, 0, 0, 0,
   1, 0, 0, 0, 0, 0, 0, 0,
   0, 0, 0, 0,
   4, 0,
   1, 0,
   0, 0, 0, 0]

/-- Discriminator for the two return orientations of `get_data`. -/
def isFlatReturn : GDReturn → Bool
  | .flat _ => true
  | .matrix _ => false

end Capa

namespace Capa

/-! ### Lemmas about `fill` -/

theorem fill_join (t : Int) (chunks : List (List Nat)) : ∀ buf : List Nat,
    (fill t buf chunks).2.1 ++ ((fill t buf chunks).2.2).flatten = buf ++ chunks.flatten := by
  induction chunks with
  | nil =>
    intro buf
    rw [fill]
    split <;> simp
  | cons c rest ih =>
    intro buf
    rw [fill]
    split
    · simpa using ih (buf ++ c)
    · simp

theorem fill_fst_false (t : Int) (chunks : List (List Nat)) : ∀ buf : List Nat,
    ((buf.length + chunks.flatten.length : Nat) : Int) < t →
    (fill t buf chunks).1 = false := by
  induction chunks with
  | nil =>
    intro buf h
    rw [fill]
    have hc : (buf.length : Int) < t := by
      simp only [List.flatten_nil, List.length_nil, Nat.add_zero] at h
      exact h
    rw [if_pos hc]
  | cons c rest ih =>
    intro buf h
    rw [fill]
    simp only [List.flatten_cons, List.length_append] at h
    push_cast at h
    have hc : (buf.length : Int) < t := by omega
    rw [if_pos hc]
    apply ih (buf ++ c)
    simp only [List.length_append]
    push_cast
    omega

theorem fill_fst_true (t : Int) (chunks : List (List Nat)) : ∀ buf : List Nat,
    t ≤ ((buf.length + chunks.flatten.length : Nat) : Int) →
    (fill t buf chunks).1 = true := by
  induction chunks with
  | nil =>
    intro buf h
    rw [fill]
    have hc : ¬ (buf.length : Int) < t := by
      simp only [List.flatten_nil, List.length_nil, Nat.add_zero] at h
      omega
    rw [if_neg hc]
  | cons c rest ih =>
    intro buf h
    rw [fill]
    by_cases hc : (buf.length : Int) < t
    · rw [if_pos hc]
      apply ih (buf ++ c)
      simp only [List.flatten_cons, List.length_append] at h
      simp only [List.length_append]
      push_cast at h ⊢
      omega
    · rw [if_neg hc]

theorem fill_true_len (t : Int) (chunks : List (List Nat)) : ∀ buf : List Nat,
    (fill t buf chunks).1 = true → t ≤ ((fill t buf chunks).2.1.length : Int) := by
  induction chunks with
  | nil =>
    intro buf h
    rw [fill] at h ⊢
    split at h
    · simp at h
    · rename_i hc
      rw [if_neg hc]
      show t ≤ (buf.length : Int)
      omega
  | cons c rest ih =>
    intro buf h
    rw [fill] at h ⊢
    split at h
    · rename_i hc
      rw [if_pos hc]
      exact ih (buf ++ c) h
    · rename_i hc
      rw [if_neg hc]
      show t ≤ (buf.length : Int)
      omega

theorem fill_false_eq (t : Int) (chunks : List (List Nat)) : ∀ buf : List Nat,
    (fill t buf chunks).1 = false →
      (fill t buf chunks).2.1 = buf ++ chunks.flatten ∧ (fill t buf chunks).2.2 = [] := by
  induction chunks with
  | nil =>
    intro buf h
    rw [fill] at h ⊢
    split at h
    · rename_i hc
      rw [if_pos hc]
      simp
    · simp at h
  | cons c rest ih =>
    intro buf h
    rw [fill] at h ⊢
    split at h
    · rename_i hc
      rw [if_pos hc]
      have := ih (buf ++ c) h
      simpa using this
    · simp at h

theorem inspect_header_congr {x y : List Nat} (h : x.take 32 = y.take 32) :
    inspect_header x = inspect_header y := by
  unfold inspect_header
  rw [h]

theorem take32_of_fill_true {t : Int} {chunks : List (List Nat)} {buf : List Nat}
    (h : (fill t buf chunks).1 = true) (ht : (32 : Int) ≤ t) :
    (fill t buf chunks).2.1.take 32 = (buf ++ chunks.flatten).take 32 := by
  have hlen := fill_true_len t chunks buf h
  have hjoin := fill_join t chunks buf
  rw [← hjoin]
  exact (List.take_append_of_le_length (by omega)).symm

/-- Claim C4: whenever the packet at the head of the stream declares fewer
channels than requested (`max(channels) + 1 > nr_of_channels`), the very next
loop iteration raises the `DeviceError` (`channelError`) right after decoding
the header: no payload bytes are consumed, the buffer still begins with the
32-byte header, and the total unconsumed byte stream is untouched. -/
theorem c4_channel_error_before_consuming
    (n : Nat) (channels : List Nat) (fuel : Nat) (data : List (List Int))
    (received : Nat) (buf : List Nat) (chunks : List (List Nat))
    (hr : received < n)
    (hlen : 32 ≤ buf.length + chunks.flatten.length)
    (hch : (inspect_header (buf ++ chunks.flatten)).nrChannels < maxList channels + 1) :
    (getDataLoop n channels (fuel + 1) data received buf chunks).result =
        .error .channelError ∧
      (getDataLoop n channels (fuel + 1) data received buf chunks).buffer.take 32 =
        (buf ++ chunks.flatten).take 32 ∧
      (getDataLoop n channels (fuel + 1) data received buf chunks).buffer ++
          ((getDataLoop n channels (fuel + 1) data received buf chunks).chunks).flatten =
        buf ++ chunks.flatten := by
  have h1 : (fill 32 buf chunks).1 = true :=
    fill_fst_true 32 chunks buf (by push_cast; omega)
  have htake := take32_of_fill_true h1 (by omega)
  have hhd : inspect_header (fill 32 buf chunks).2.1 =
      inspect_header (buf ++ chunks.flatten) := inspect_header_congr htake
  have hjoin := fill_join 32 chunks buf
  simp only [getDataLoop, if_pos hr, h1, if_true, hhd, if_pos hch]
  exact ⟨trivial, htake, hjoin⟩

/-- Witness for C4 at a concrete input: one 32-byte all-zero header (zero
declared channels) with channel 0 requested. -/
theorem c4_witness :
    (getDataLoop 1 [0] 1 [[0]] 0 [] [List.replicate 32 0]).result =
        .error .channelError ∧
      (getDataLoop 1 [0] 1 [[0]] 0 [] [List.replicate 32 0]).buffer.take 32 =
        (([] : List Nat) ++ [List.replicate 32 0].flatten).take 32 ∧
      (getDataLoop 1 [0] 1 [[0]] 0 [] [List.replicate 32 0]).buffer ++
          ((getDataLoop 1 [0] 1 [[0]] 0 [] [List.replicate 32 0]).chunks).flatten =
        ([] : List Nat) ++ [List.replicate 32 0].flatten :=
  c4_channel_error_before_consuming 1 [0] 0 [[0]] 0 [] [List.replicate 32 0]
    (by decide) (by decide) (by decide)

/-- Claim C5 (amended): a read timeout hitting while fewer than 32 bytes are
buffered makes `get_data` STOP NORMALLY, returning the preallocated data
array as is (no transpose, no flattening, zero rows where no sample was
collected) — no error; whereas once a decoded header has committed to a
payload size, a timeout before `32 + payload_size` bytes are available
propagates as an error (the uncaught `socket.timeout`). -/
theorem c5_amended_timeout_semantics
    (n : Nat) (channels : List Nat) (fuel : Nat) (data : List (List Int))
    (received : Nat) (buf : List Nat) (chunks : List (List Nat))
    (hr : received < n) :
    (buf.length + chunks.flatten.length < 32 →
      getDataLoop n channels (fuel + 1) data received buf chunks =
        ⟨.ok (.matrix data), buf ++ chunks.flatten, []⟩) ∧
    (32 ≤ buf.length + chunks.flatten.length →
      maxList channels + 1 ≤ (inspect_header (buf ++ chunks.flatten)).nrChannels →
      ((buf.length + chunks.flatten.length : Nat) : Int) <
        32 + (inspect_header (buf ++ chunks.flatten)).payloadSize →
      (getDataLoop n channels (fuel + 1) data received buf chunks).result =
        .error .timeoutError) := by
  constructor
  · intro h
    have h1 : (fill 32 buf chunks).1 = false :=
      fill_fst_false 32 chunks buf (by push_cast; omega)
    obtain ⟨hb, hc⟩ := fill_false_eq 32 chunks buf h1
    simp only [getDataLoop, if_pos hr, h1, Bool.false_eq_true, if_false, hb, hc]
  · intro h32 hchk hsz
    have h1 : (fill 32 buf chunks).1 = true :=
      fill_fst_true 32 chunks buf (by push_cast; omega)
    have htake := take32_of_fill_true h1 (by omega)
    have hhd : inspect_header (fill 32 buf chunks).2.1 =
        inspect_header (buf ++ chunks.flatten) := inspect_header_congr htake
    have hjoin := fill_join 32 chunks buf
    have hlenT : (fill 32 buf chunks).2.1.length +
        ((fill 32 buf chunks).2.2).flatten.length =
        buf.length + chunks.flatten.length := by
      have := congrArg List.length hjoin
      simpa [List.length_append] using this
    have h2 : (fill (32 + (inspect_header (buf ++ chunks.flatten)).payloadSize)
        (fill 32 buf chunks).2.1 ((fill 32 buf chunks).2.2)).1 = false := by
      apply fill_fst_false
      push_cast
      push_cast at hsz
      omega
    have hneg : ¬ (inspect_header (buf ++ chunks.flatten)).nrChannels <
        maxList channels + 1 := by omega
    simp only [getDataLoop, if_pos hr, h1, if_true, hhd, if_neg hneg, h2,
      Bool.false_eq_true, if_false]

/-- Witness for C5 (amended), both parts at concrete inputs: with no bytes
at all the call returns the preallocated single zero row normally; with only
the 32-byte committing header `hdrCommit` buffered (payload 4 bytes, never
supplied) the call raises the timeout error. -/
theorem c5_witness :
    getDataLoop 1 [0] 1 [[0]] 0 [] [] = ⟨.ok (.matrix [[0]]), [], []⟩ ∧
      (getDataLoop 1 [0] 1 [[0]] 0 [] [hdrCommit]).result = .error .timeoutError := by
  constructor
  · exact (c5_amended_timeout_semantics 1 [0] 0 [[0]] 0 [] [] (by decide)).1 (by decide)
  · exact (c5_amended_timeout_semantics 1 [0] 0 [[0]] 0 [] [hdrCommit]
      (by decide)).2 (by decide) (by decide) (by decide)

theorem rowOf_ok_length {channels frame : List Nat} {row : List Int}
    (h : rowOf channels frame = .ok row) : row.length = channels.length := by
  simp only [rowOf] at h
  split at h
  · split at h
    · injection h with h
      rw [← h, List.length_map]
    · exact absurd h (by simp)
  · exact absurd h (by simp)

theorem procFrames_preserve {channels payload : List Nat} {bpf : Int} {n k : Nat}
    (hk : channels.length = k) :
    ∀ (is : List Nat) (data : List (List Int)) (received : Nat)
      (data' : List (List Int)) (received' : Nat),
      (∀ row ∈ data, row.length = k) →
      procFrames channels payload bpf n is data received = .ok (data', received') →
      ∀ row ∈ data', row.length = k := by
  intro is
  induction is with
  | nil =>
    intro data received data' received' hinv h
    rw [procFrames] at h
    injection h with h
    rw [← (Prod.mk.injEq .. |>.mp h).1]
    exact hinv
  | cons i is ih =>
    intro data received data' received' hinv h
    rw [procFrames] at h
    split at h
    · rcases hrow : rowOf channels (pySlice payload (i * bpf) ((i + 1) * bpf)) with e | row
      · rw [hrow] at h
        exact absurd h (by simp)
      · rw [hrow] at h
        apply ih (data.set received row) (received + 1) data' received' _ h
        intro r hr
        rcases List.mem_or_eq_of_mem_set hr with hmem | rfl
        · exact hinv r hmem
        · rw [rowOf_ok_length hrow, hk]
    · injection h with h
      rw [← (Prod.mk.injEq .. |>.mp h).1]
      exact hinv

theorem getDataLoop_ok_shape
    (channels : List Nat) (hk : channels.length = 1) :
    ∀ (fuel : Nat) (n : Nat) (data : List (List Int)) (received : Nat)
      (buf : List Nat) (chunks : List (List Nat)) (r : GDReturn),
      (∀ row ∈ data, row.length = 1) →
      (getDataLoop n channels fuel data received buf chunks).result = .ok r →
      (∃ xs, r = .flat xs) ∨
        (∃ rows, r = .matrix rows ∧ ∀ row ∈ rows, row.length = 1) := by
  intro fuel
  induction fuel with
  | zero =>
    intro n data received buf chunks r _ h
    simp [getDataLoop] at h
  | succ fuel ih =>
    intro n data received buf chunks r hinv h
    by_cases hrec : received < n
    · cases hf1 : (fill 32 buf chunks).1 with
      | false =>
        simp only [getDataLoop, if_pos hrec, hf1, Bool.false_eq_true, if_false] at h
        injection h with h
        exact Or.inr ⟨data, h.symm, hinv⟩
      | true =>
        by_cases hchk : (inspect_header (fill 32 buf chunks).2.1).nrChannels <
            maxList channels + 1
        · simp only [getDataLoop, if_pos hrec, hf1, if_true, if_pos hchk] at h
          exact absurd h (by simp)
        · cases hf2 : (fill (32 + (inspect_header (fill 32 buf chunks).2.1).payloadSize)
              (fill 32 buf chunks).2.1 (fill 32 buf chunks).2.2).1 with
          | false =>
            simp only [getDataLoop, if_pos hrec, hf1, if_true, if_neg hchk, hf2,
              Bool.false_eq_true, if_false] at h
            exact absurd h (by simp)
          | true =>
            rcases hpf : procFrames channels
                (pySlice (fill (32 + (inspect_header (fill 32 buf chunks).2.1).payloadSize)
                  (fill 32 buf chunks).2.1 (fill 32 buf chunks).2.2).2.1 32
                  (32 + (inspect_header (fill 32 buf chunks).2.1).payloadSize))
                (inspect_header (fill 32 buf chunks).2.1).bytesPerFrame n
                (List.range (inspect_header (fill 32 buf chunks).2.1).nrFrames.toNat)
                data received with e | pr
            · simp only [getDataLoop, if_pos hrec, hf1, if_true, if_neg hchk, hf2,
                hpf] at h
              exact absurd h (by simp)
            · obtain ⟨data', received'⟩ := pr
              simp only [getDataLoop, if_pos hrec, hf1, if_true, if_neg hchk, hf2,
                hpf] at h
              exact ih n data' received' _ _ r
                (procFrames_preserve hk _ data received data' received' hinv hpf) h
    · simp only [getDataLoop, if_neg hrec] at h
      injection h with h
      unfold finalize at h
      rw [if_pos hk] at h
      exact Or.inl ⟨_, h.symm⟩

/-- Claim C8 (amended): on the NORMAL return path a single requested channel
yields the flat orientation, and the only other successful return path (the
pre-header timeout) yields the untransposed matrix whose rows all have
length 1 — so every successful return with one requested channel is either
flat or a sequence of length-1 rows. -/
theorem c8_amended_single_channel_shape
    (n : Nat) (channels : List Nat) (chunks : List (List Nat)) (r : GDReturn)
    (hk : channels.length = 1)
    (h : (get_data n channels chunks).result = .ok r) :
    (∃ xs, r = .flat xs) ∨
      (∃ rows, r = .matrix rows ∧ ∀ row ∈ rows, row.length = 1) := by
  apply getDataLoop_ok_shape channels hk (defaultFuel n chunks) n _ 0 [] chunks r _ h
  intro row hrow
  rw [List.eq_of_mem_replicate hrow, List.length_replicate, hk]

/-- Witness for C8 (amended) at a concrete input: a request of one sample on
channel 0 with an empty reader times out and returns the length-1-row
matrix. -/
theorem c8_amended_witness :
    (∃ xs, GDReturn.matrix [[0]] = .flat xs) ∨
      (∃ rows, GDReturn.matrix [[0]] = .matrix rows ∧ ∀ row ∈ rows, row.length = 1) :=
  c8_amended_single_channel_shape 1 [0] [] (.matrix [[0]]) (by decide) (by decide)

/-! ### Frame extraction machinery (claims C3 and C7) -/

/-- The value a successful frame projection produces. -/
def rowVal (channels : List Nat) (frame : List Nat) : List Int :=
  channels.map (fun c => (toInt32s frame).getD c 0)

/-- Overwrite consecutive rows of `data` starting at index `j` — the net
effect of the `data[received_data_points] = ...` assignments of one packet. -/
def setRows : List (List Int) → Nat → List (List Int) → List (List Int)
  | data, _, [] => data
  | data, j, row :: rows => setRows (data.set j row) (j + 1) rows

/-- Generator for packets as `get_data` itself decodes them: the 16-bit field
at offset 24 is what `inspect_header` returns as `bytes_per_frame` and the
field at offset 26 is what it returns as `nr_of_frames` (the source reads the
two shorts at these offsets in this swapped order; see claim C2). -/
def mkPacket (chField bpf : Nat) (frames : List (List Nat)) : List Nat :=
  [0, 0, 0, 0, 0, 0, 0, 0, 0, 0, 0, 0,
   chField % 256, chField / 2 ^ 8 % 256, chField / 2 ^ 16 % 256, chField / 2 ^ 24 % 256,
   chField / 2 ^ 32 % 256, chField / 2 ^ 40 % 256, chField / 2 ^ 48 % 256, chField / 2 ^ 56 % 256,
   0, 0, 0, 0,
   bpf % 256, bpf / 256,
   frames.length % 256, frames.length / 256,
   0, 0, 0, 0] ++ frames.flatten

theorem inspect_mkPacket (chField bpf : Nat) (frames : List (List Nat))
    (hch : chField < 2 ^ 63) (hbpf : bpf < 2 ^ 15) (hm : frames.length < 2 ^ 15) :
    inspect_header (mkPacket chField bpf frames) =
      ⟨popcount64 chField, (frames.length : Int), (bpf : Int),
        (bpf : Int) * (frames.length : Int)⟩ := by
  have hu24 : u16LE ((mkPacket chField bpf frames).take 32) 24 = bpf := by
    show bpf % 256 + 256 * (bpf / 256) = bpf
    exact Nat.mod_add_div bpf 256
  have hu26 : u16LE ((mkPacket chField bpf frames).take 32) 26 = frames.length := by
    show frames.length % 256 + 256 * (frames.length / 256) = frames.length
    exact Nat.mod_add_div frames.length 256
  have hu12 : u64LE ((mkPacket chField bpf frames).take 32) 12 = chField := by
    show chField % 256 + 256 * (chField / 2 ^ 8 % 256) + 256 ^ 2 * (chField / 2 ^ 16 % 256) +
        256 ^ 3 * (chField / 2 ^ 24 % 256) + 256 ^ 4 * (chField / 2 ^ 32 % 256) +
        256 ^ 5 * (chField / 2 ^ 40 % 256) + 256 ^ 6 * (chField / 2 ^ 48 % 256) +
        256 ^ 7 * (chField / 2 ^ 56 % 256) = chField
    omega
  have hstep : inspect_header (mkPacket chField bpf frames) =
      ⟨popcount64 (s64 (u64LE ((mkPacket chField bpf frames).take 32) 12)).natAbs,
        s16 (u16LE ((mkPacket chField bpf frames).take 32) 26),
        s16 (u16LE ((mkPacket chField bpf frames).take 32) 24),
        s16 (u16LE ((mkPacket chField bpf frames).take 32) 24) *
          s16 (u16LE ((mkPacket chField bpf frames).take 32) 26)⟩ := rfl
  rw [hstep, hu24, hu26, hu12]
  have hs64 : s64 chField = (chField : Int) := by
    unfold s64
    rw [if_pos (by omega)]
  have hs16b : s16 bpf = (bpf : Int) := by
    unfold s16
    rw [if_pos (by omega)]
  have hs16m : s16 frames.length = (frames.length : Int) := by
    unfold s16
    rw [if_pos (by omega)]
  rw [hs64, hs16b, hs16m, Int.natAbs_ofNat]

theorem setRows_eq : ∀ (rows data : List (List Int)) (j : Nat),
    j + rows.length ≤ data.length →
    setRows data j rows = data.take j ++ rows ++ data.drop (j + rows.length) := by
  intro rows
  induction rows with
  | nil =>
    intro data j h
    show data = data.take j ++ [] ++ data.drop (j + 0)
    simp [List.take_append_drop]
  | cons r rs ih =>
    intro data j h
    have hj : j < data.length := by
      simp only [List.length_cons] at h
      omega
    show setRows (data.set j r) (j + 1) rs = _
    rw [ih (data.set j r) (j + 1) (by simp only [List.length_set, List.length_cons] at h ⊢; omega)]
    have hset : data.set j r = data.take j ++ r :: data.drop (j + 1) := by
      rw [List.set_eq_take_append_cons_drop, if_pos hj]
    rw [hset]
    have hlen : (data.take j).length = j := by
      rw [List.length_take]
      omega
    have htake : (data.take j ++ r :: data.drop (j + 1)).take (j + 1) =
        data.take j ++ [r] := by
      have : j + 1 = (data.take j).length + 1 := by rw [hlen]
      rw [this, List.take_append]
      simp
    have hdrop : (data.take j ++ r :: data.drop (j + 1)).drop (j + 1 + rs.length) =
        data.drop (j + (rs.length + 1)) := by
      have : j + 1 + rs.length = (data.take j).length + (1 + rs.length) := by
        rw [hlen]
        omega
      rw [this, List.drop_append]
      show (r :: data.drop (j + 1)).drop (1 + rs.length) = _
      have : 1 + rs.length = rs.length + 1 := by omega
      rw [this]
      show (data.drop (j + 1)).drop rs.length = _
      rw [List.drop_drop]
      congr 1
      omega
    rw [htake, hdrop]
    simp [List.length_cons]

theorem procFrames_range (channels payload : List Nat) (bpf : Int) (n : Nat)
    (rowAt : Nat → List Int) :
    ∀ (k a : Nat) (data : List (List Int)) (received : Nat),
      (∀ i, a ≤ i → i < a + k →
        rowOf channels (pySlice payload ((i : Int) * bpf) (((i : Int) + 1) * bpf)) =
          .ok (rowAt i)) →
      procFrames channels payload bpf n (List.range' a k) data received =
        .ok (setRows data received ((List.range' a (min k (n - received))).map rowAt),
             received + min k (n - received)) := by
  intro k
  induction k with
  | zero =>
    intro a data received _
    show Except.ok (data, received) = _
    simp [setRows]
  | succ k ih =>
    intro a data received h
    rw [List.range'_succ]
    rw [procFrames]
    by_cases hrec : received < n
    · rw [if_pos hrec]
      have hrow := h a (by omega) (by omega)
      rw [hrow]
      show procFrames channels payload bpf n (List.range' (a + 1) k)
        (data.set received (rowAt a)) (received + 1) = _
      rw [ih (a + 1) (data.set received (rowAt a)) (received + 1)
        (fun i h1 h2 => h i (by omega) (by omega))]
      have hmin : min (k + 1) (n - received) = min k (n - received - 1) + 1 := by
        omega
      rw [hmin, List.range'_succ]
      have h1 : n - (received + 1) = n - received - 1 := by omega
      rw [h1]
      have h2 : received + 1 + (k ⊓ (n - received - 1)) =
          received + (k ⊓ (n - received - 1) + 1) := by omega
      rw [h2]
      rfl
    · rw [if_neg hrec]
      have : n - received = 0 := by omega
      rw [this]
      simp [setRows]

theorem toInt32s_length : ∀ l : List Nat, (toInt32s l).length = l.length / 4
  | [] => rfl
  | [_] => by simp [toInt32s]
  | [_, _] => by simp [toInt32s]
  | [_, _, _] => by simp [toInt32s]
  | _ :: _ :: _ :: _ :: rest => by
    show (toInt32s rest).length + 1 = _
    rw [toInt32s_length rest]
    show rest.length / 4 + 1 = (rest.length + 1 + 1 + 1 + 1) / 4
    omega

theorem flatten_length_const {bpf : Nat} : ∀ frames : List (List Nat),
    (∀ f ∈ frames, f.length = bpf) → frames.flatten.length = frames.length * bpf := by
  intro frames
  induction frames with
  | nil => intro _; simp
  | cons f fs ih =>
    intro h
    rw [List.flatten_cons, List.length_append, ih (fun g hg => h g (by simp [hg])),
      h f (by simp), List.length_cons]
    ring

theorem flatten_frame_slice {bpf : Nat} : ∀ (frames : List (List Nat)) (i : Nat),
    (∀ f ∈ frames, f.length = bpf) → i < frames.length →
    (frames.flatten.drop (i * bpf)).take bpf = frames.getD i [] := by
  intro frames
  induction frames with
  | nil => intro i _ hi; simp at hi
  | cons f fs ih =>
    intro i h hi
    match i with
    | 0 =>
      rw [Nat.zero_mul, List.drop_zero, List.flatten_cons, List.getD_cons_zero]
      rw [← h f (by simp)]
      exact List.take_left f fs.flatten
    | i + 1 =>
      rw [List.flatten_cons, List.getD_cons_succ]
      have : (i + 1) * bpf = f.length + i * bpf := by
        rw [h f (by simp)]
        ring
      rw [this, List.drop_append]
      exact ih i (fun g hg => h g (by simp [hg])) (by simpa using hi)

theorem pySlice_frame {bpf : Nat} (frames : List (List Nat)) (i : Nat)
    (h : ∀ f ∈ frames, f.length = bpf) (hi : i < frames.length) :
    pySlice frames.flatten ((i : Int) * (bpf : Int)) (((i : Int) + 1) * (bpf : Int)) =
      frames.getD i [] := by
  have hlen := flatten_length_const frames h
  have hcast1 : ((i : Int) * (bpf : Int)) = ((i * bpf : Nat) : Int) := by push_cast; ring
  have hcast2 : (((i : Int) + 1) * (bpf : Int)) = (((i + 1) * bpf : Nat) : Int) := by
    push_cast; ring
  unfold pySlice
  rw [hcast1, hcast2]
  have hle1 : i * bpf ≤ frames.flatten.length := by
    rw [hlen]
    exact Nat.mul_le_mul_right bpf (by omega)
  have hle2 : (i + 1) * bpf ≤ frames.flatten.length := by
    rw [hlen]
    exact Nat.mul_le_mul_right bpf (by omega)
  have hn1 : pyNorm frames.flatten.length ((i * bpf : Nat) : Int) = i * bpf := by
    unfold pyNorm
    rw [if_pos (by positivity), Int.toNat_ofNat]
    omega
  have hn2 : pyNorm frames.flatten.length (((i + 1) * bpf : Nat) : Int) = (i + 1) * bpf := by
    unfold pyNorm
    rw [if_pos (by positivity), Int.toNat_ofNat]
    omega
  rw [hn1, hn2, List.drop_take]
  have : (i + 1) * bpf - i * bpf = bpf := by
    have : (i + 1) * bpf = i * bpf + bpf := by ring
    omega
  rw [this]
  exact flatten_frame_slice frames i h hi

theorem rowOf_frame (channels : List Nat) {bpf : Nat} (frames : List (List Nat))
    (hb4 : bpf % 4 = 0) (hlens : ∀ f ∈ frames, f.length = bpf)
    (hch : ∀ c ∈ channels, c < bpf / 4) (i : Nat) (hi : i < frames.length) :
    rowOf channels (pySlice frames.flatten ((i : Int) * (bpf : Int))
      (((i : Int) + 1) * (bpf : Int))) = .ok (rowVal channels (frames.getD i [])) := by
  rw [pySlice_frame frames i hlens hi]
  have hflen : (frames.getD i []).length = bpf := by
    rw [List.getD_eq_getElem frames [] hi]
    exact hlens _ (List.getElem_mem hi)
  unfold rowOf
  rw [if_pos (by rw [hflen]; exact hb4)]
  have hall : channels.all
      (fun c => c < (toInt32s (frames.getD i [])).length) = true := by
    rw [List.all_eq_true]
    intro c hc
    rw [toInt32s_length, hflen]
    simpa using hch c hc
  rw [if_pos hall]
  rfl

theorem pyNorm_packet {p rest : List Nat} {psz : Int} (h32 : 32 ≤ p.length)
    (hpsz : (p.length : Int) = 32 + psz) :
    pyNorm (p ++ rest).length (32 + psz) = p.length := by
  unfold pyNorm
  rw [if_pos (by omega)]
  have hk : (32 + psz).toNat = p.length := by omega
  rw [hk, List.length_append]
  exact Nat.min_eq_left (Nat.le_add_right _ _)

theorem pySlice_packet {p rest : List Nat} {psz : Int} (h32 : 32 ≤ p.length)
    (hpsz : (p.length : Int) = 32 + psz) :
    pySlice (p ++ rest) 32 (32 + psz) = p.drop 32 := by
  unfold pySlice
  rw [pyNorm_packet h32 hpsz]
  have hn1 : pyNorm (p ++ rest).length 32 = 32 := by
    unfold pyNorm
    rw [if_pos (by omega)]
    show min (Int.toNat 32) _ = 32
    rw [show Int.toNat 32 = 32 from rfl, List.length_append]
    exact Nat.min_eq_left (by omega)
  rw [hn1, List.take_left]

theorem pySliceFrom_packet {p rest : List Nat} {psz : Int} (h32 : 32 ≤ p.length)
    (hpsz : (p.length : Int) = 32 + psz) :
    pySliceFrom (p ++ rest) (32 + psz) = rest := by
  unfold pySliceFrom
  rw [pyNorm_packet h32 hpsz, List.drop_left]

theorem getDataLoop_exit (n : Nat) (channels : List Nat) (fuel : Nat)
    (data : List (List Int)) (received : Nat) (buf : List Nat)
    (chunks : List (List Nat)) (h : ¬ received < n) :
    getDataLoop n channels (fuel + 1) data received buf chunks =
      ⟨.ok (finalize channels data), buf, chunks⟩ := by
  simp [getDataLoop, if_neg h]

/-- One loop iteration of `get_data` when the buffer already holds one
complete packet `p` followed by `rest` and the channel check passes: the
frame loop runs on the payload `p.drop 32` and the whole packet is dropped
from the buffer. -/
theorem getDataLoop_step_full
    (n : Nat) (channels : List Nat) (fuel : Nat) (data : List (List Int))
    (received : Nat) (p rest : List Nat)
    (hrec : received < n)
    (h32 : 32 ≤ p.length)
    (hpsz : (p.length : Int) = 32 + (inspect_header p).payloadSize)
    (hchk : ¬ (inspect_header p).nrChannels < maxList channels + 1) :
    getDataLoop n channels (fuel + 1) data received (p ++ rest) [] =
      (match procFrames channels (p.drop 32) (inspect_header p).bytesPerFrame n
          (List.range (inspect_header p).nrFrames.toNat) data received with
       | .error e => ⟨.error e, p ++ rest, []⟩
       | .ok pr => getDataLoop n channels fuel pr.1 pr.2 rest []) := by
  have hfull1 : fill 32 (p ++ rest) [] = (true, p ++ rest, []) := by
    rw [fill, if_neg]
    rw [List.length_append]
    push_cast
    omega
  have hhd : inspect_header (p ++ rest) = inspect_header p :=
    inspect_header_congr (List.take_append_of_le_length h32)
  have hfull2 : fill (32 + (inspect_header p).payloadSize) (p ++ rest) [] =
      (true, p ++ rest, []) := by
    rw [fill, if_neg]
    rw [List.length_append]
    push_cast
    omega
  simp only [getDataLoop, if_pos hrec, hfull1, if_true, hhd, if_neg hchk, hfull2,
    pySlice_packet h32 hpsz, pySliceFrom_packet h32 hpsz]
  cases procFrames channels (List.drop 32 p) (inspect_header p).bytesPerFrame n
      (List.range (inspect_header p).nrFrames.toNat) data received with
  | error e => rfl
  | ok pr =>
    cases pr
    rfl

theorem rangeMap_take (channels : List Nat) (frames : List (List Nat)) (t : Nat)
    (ht : t ≤ frames.length) :
    (List.range' 0 t).map (fun i => rowVal channels (frames.getD i [])) =
      (frames.map (rowVal channels)).take t := by
  apply List.ext_getElem
  · simp [List.length_range', List.length_take, List.length_map]
    omega
  · intro i h1 h2
    rw [List.getElem_map, List.getElem_take, List.getElem_map, List.getElem_range']
    have hi : i < frames.length := by
      simp [List.length_range'] at h1
      omega
    rw [show (0 + 1 * i) = i by omega, List.getD_eq_getElem frames [] hi]

theorem getDataLoop_load (n : Nat) (channels : List Nat) (fuel : Nat)
    (data : List (List Int)) (received : Nat) (T : List Nat) (h32 : 32 ≤ T.length)
    (hrec : received < n) :
    getDataLoop n channels (fuel + 1) data received [] [T] =
      getDataLoop n channels (fuel + 1) data received T [] := by
  have e1 : fill 32 [] [T] = (true, T, []) := by
    rw [fill]
    rw [if_pos (by simp)]
    show fill 32 ([] ++ T) [] = _
    rw [fill]
    rw [if_neg (by simp; omega)]
    simp
  have e2 : fill 32 T [] = (true, T, []) := by
    rw [fill, if_neg (by omega)]
  simp only [getDataLoop, e1, e2, if_pos hrec]

/-- Claim C7: for a stream of two complete packets (with the header fields
placed where `get_data` reads them, all frames `bpf` bytes, channel check
passing, frame projection well formed), a request that is satisfied partway
through the first packet truncates there but still drops the WHOLE first
packet from the buffer, leaving exactly the second packet buffered; and a
request exceeding the frame count of the first packet spans into the second
packet until the requested count of samples has been emitted. -/
theorem c7_truncation_and_spanning
    (channels : List Nat) (chField bpf : Nat) (frames1 frames2 : List (List Nat))
    (n : Nat)
    (hch63 : chField < 2 ^ 63) (hbpf : bpf < 2 ^ 15)
    (hm1 : frames1.length < 2 ^ 15) (hm2 : frames2.length < 2 ^ 15)
    (hb4 : bpf % 4 = 0)
    (hf1 : ∀ f ∈ frames1, f.length = bpf) (hf2 : ∀ f ∈ frames2, f.length = bpf)
    (hchans : ∀ c ∈ channels, c < bpf / 4)
    (hchk : maxList channels + 1 ≤ popcount64 chField)
    (hn : 0 < n) :
    (n ≤ frames1.length →
      get_data n channels [mkPacket chField bpf frames1 ++ mkPacket chField bpf frames2] =
        ⟨.ok (finalize channels ((frames1.map (rowVal channels)).take n)),
          mkPacket chField bpf frames2, []⟩) ∧
    (frames1.length < n → n ≤ frames1.length + frames2.length →
      get_data n channels [mkPacket chField bpf frames1 ++ mkPacket chField bpf frames2] =
        ⟨.ok (finalize channels (frames1.map (rowVal channels) ++
            (frames2.map (rowVal channels)).take (n - frames1.length))), [], []⟩) := by
  have hhd1 := inspect_mkPacket chField bpf frames1 hch63 hbpf hm1
  have hhd2 := inspect_mkPacket chField bpf frames2 hch63 hbpf hm2
  have hlen1 : (mkPacket chField bpf frames1).length = 32 + frames1.length * bpf := by
    simp [mkPacket, flatten_length_const frames1 hf1]
    omega
  have hlen2 : (mkPacket chField bpf frames2).length = 32 + frames2.length * bpf := by
    simp [mkPacket, flatten_length_const frames2 hf2]
    omega
  have h32_1 : 32 ≤ (mkPacket chField bpf frames1).length := by omega
  have h32_2 : 32 ≤ (mkPacket chField bpf frames2).length := by omega
  have hpsz1 : ((mkPacket chField bpf frames1).length : Int) =
      32 + (inspect_header (mkPacket chField bpf frames1)).payloadSize := by
    rw [hhd1, hlen1]
    push_cast
    ring
  have hpsz2 : ((mkPacket chField bpf frames2).length : Int) =
      32 + (inspect_header (mkPacket chField bpf frames2)).payloadSize := by
    rw [hhd2, hlen2]
    push_cast
    ring
  have hchk1 : ¬ (inspect_header (mkPacket chField bpf frames1)).nrChannels <
      maxList channels + 1 := by
    rw [hhd1]
    show ¬ popcount64 chField < maxList channels + 1
    omega
  have hchk2 : ¬ (inspect_header (mkPacket chField bpf frames2)).nrChannels <
      maxList channels + 1 := by
    rw [hhd2]
    show ¬ popcount64 chField < maxList channels + 1
    omega
  have hdrop1 : (mkPacket chField bpf frames1).drop 32 = frames1.flatten := rfl
  have hdrop2 : (mkPacket chField bpf frames2).drop 32 = frames2.flatten := rfl
  set p1 := mkPacket chField bpf frames1 with hp1
  set p2 := mkPacket chField bpf frames2 with hp2
  set data0 : List (List Int) :=
    List.replicate n (List.replicate channels.length 0) with hdata0
  have hfuel : defaultFuel n [p1 ++ p2] = (n + (p1 ++ p2).length + 1) + 1 := by
    simp [defaultFuel]
  have hload : get_data n channels [p1 ++ p2] =
      getDataLoop n channels ((n + (p1 ++ p2).length + 1) + 1) data0 0 (p1 ++ p2) [] := by
    unfold get_data
    rw [hfuel]
    exact getDataLoop_load n channels _ data0 0 (p1 ++ p2)
      (by rw [List.length_append]; omega) hn
  constructor
  · -- truncation within the first packet
    intro hn1
    have hpf1 : procFrames channels (p1.drop 32)
        (inspect_header p1).bytesPerFrame n
        (List.range (inspect_header p1).nrFrames.toNat) data0 0 =
        .ok ((frames1.map (rowVal channels)).take n, n) := by
      rw [hhd1, hdrop1]
      show procFrames channels frames1.flatten (bpf : Int) n
        (List.range frames1.length) data0 0 = _
      rw [List.range_eq_range']
      rw [procFrames_range channels frames1.flatten (bpf : Int) n
        (fun i => rowVal channels (frames1.getD i [])) frames1.length 0 data0 0
        (fun i _ h2 => rowOf_frame channels frames1 hb4 hf1 hchans i (by omega))]
      have hmin : min frames1.length (n - 0) = n := by omega
      rw [hmin, rangeMap_take channels frames1 n hn1]
      have hrows : ((frames1.map (rowVal channels)).take n).length = n := by
        rw [List.length_take, List.length_map]
        omega
      rw [setRows_eq _ data0 0 (by rw [hrows, hdata0, List.length_replicate]; omega)]
      rw [hdata0, List.drop_replicate]
      rw [hrows]
      simp
    rw [hload, getDataLoop_step_full n channels _ data0 0 p1 p2 hn h32_1 hpsz1 hchk1,
      hpf1]
    show getDataLoop n channels (n + (p1 ++ p2).length + 1)
      ((frames1.map (rowVal channels)).take n) n p2 [] = _
    obtain ⟨k, hk⟩ : ∃ k, n + (p1 ++ p2).length + 1 = k + 1 :=
      ⟨n + (p1 ++ p2).length, rfl⟩
    rw [hk, getDataLoop_exit n channels k _ n p2 [] (by omega)]
  · -- spanning into the second packet
    intro hn1 hn2
    have hpf1 : procFrames channels (p1.drop 32)
        (inspect_header p1).bytesPerFrame n
        (List.range (inspect_header p1).nrFrames.toNat) data0 0 =
        .ok (frames1.map (rowVal channels) ++
          List.replicate (n - frames1.length) (List.replicate channels.length 0),
          frames1.length) := by
      rw [hhd1, hdrop1]
      show procFrames channels frames1.flatten (bpf : Int) n
        (List.range frames1.length) data0 0 = _
      rw [List.range_eq_range']
      rw [procFrames_range channels frames1.flatten (bpf : Int) n
        (fun i => rowVal channels (frames1.getD i [])) frames1.length 0 data0 0
        (fun i _ h2 => rowOf_frame channels frames1 hb4 hf1 hchans i (by omega))]
      have hmin : min frames1.length (n - 0) = frames1.length := by omega
      rw [hmin, rangeMap_take channels frames1 frames1.length le_rfl]
      have htl : (frames1.map (rowVal channels)).take frames1.length =
          frames1.map (rowVal channels) := by
        rw [← List.length_map frames1 (rowVal channels), List.take_length]
      rw [htl]
      have hrows : (frames1.map (rowVal channels)).length = frames1.length := by
        rw [List.length_map]
      rw [setRows_eq _ data0 0 (by rw [hrows, hdata0, List.length_replicate]; omega)]
      rw [hdata0, List.drop_replicate, hrows]
      simp
    have hdata1len : (frames1.map (rowVal channels) ++
        List.replicate (n - frames1.length) (List.replicate channels.length 0)).length
        = n := by
      rw [List.length_append, List.length_map, List.length_replicate]
      omega
    have hpf2 : procFrames channels (p2.drop 32)
        (inspect_header p2).bytesPerFrame n
        (List.range (inspect_header p2).nrFrames.toNat)
        (frames1.map (rowVal channels) ++
          List.replicate (n - frames1.length) (List.replicate channels.length 0))
        frames1.length =
        .ok (frames1.map (rowVal channels) ++
          (frames2.map (rowVal channels)).take (n - frames1.length), n) := by
      rw [hhd2, hdrop2]
      show procFrames channels frames2.flatten (bpf : Int) n
        (List.range frames2.length) _ frames1.length = _
      rw [List.range_eq_range']
      rw [procFrames_range channels frames2.flatten (bpf : Int) n
        (fun i => rowVal channels (frames2.getD i [])) frames2.length 0 _ frames1.length
        (fun i _ h2 => rowOf_frame channels frames2 hb4 hf2 hchans i (by omega))]
      have hmin : min frames2.length (n - frames1.length) = n - frames1.length := by
        omega
      rw [hmin, rangeMap_take channels frames2 (n - frames1.length) (by omega)]
      have hrows2 : ((frames2.map (rowVal channels)).take (n - frames1.length)).length
          = n - frames1.length := by
        rw [List.length_take, List.length_map]
        omega
      rw [setRows_eq _ _ frames1.length (by rw [hrows2, hdata1len]; omega)]
      rw [List.take_left' (by rw [List.length_map])]
      rw [hrows2]
      have hdropall : (frames1.map (rowVal channels) ++
          List.replicate (n - frames1.length) (List.replicate channels.length 0)).drop
          (frames1.length + (n - frames1.length)) = [] := by
        apply List.drop_eq_nil_of_le
        rw [hdata1len]
        omega
      rw [hdropall]
      have harith : frames1.length + (n - frames1.length) = n := by omega
      rw [harith]
      simp
    rw [hload, getDataLoop_step_full n channels _ data0 0 p1 p2 hn h32_1 hpsz1 hchk1,
      hpf1]
    show getDataLoop n channels (n + (p1 ++ p2).length + 1)
      (frames1.map (rowVal channels) ++
        List.replicate (n - frames1.length) (List.replicate channels.length 0))
      frames1.length p2 [] = _
    rw [show p2 = p2 ++ [] from (List.append_nil p2).symm,
      getDataLoop_step_full n channels _ _ frames1.length p2 [] (by omega)
        h32_2 hpsz2 hchk2]
    rw [List.append_nil p2, hpf2]
    show getDataLoop n channels (n + (p1 ++ p2).length)
      (frames1.map (rowVal channels) ++
        (frames2.map (rowVal channels)).take (n - frames1.length)) n [] [] = _
    obtain ⟨k, hk⟩ : ∃ k, n + (p1 ++ p2).length = k + 1 :=
      ⟨n + (p1 ++ p2).length - 1, by omega⟩
    rw [hk, getDataLoop_exit n channels k _ n [] [] (by omega)]

/-- Concrete two-frame packet payload used by the C7 witness. -/
def f1W : List (List Nat) :=
  [[10, 0, 0, 0, 20, 0, 0, 0], [11, 0, 0, 0, 21, 0, 0, 0]]

/-- Concrete one-frame packet payload used by the C7 witness. -/
def f2W : List (List Nat) := [[12, 0, 0, 0, 22, 0, 0, 0]]

/-- Witness for C7 at concrete inputs: requesting 1 of the 2 frames of the
first packet truncates but drops the whole packet; requesting 3 spans both
packets. -/
theorem c7_witness :
    (get_data 1 [0, 1] [mkPacket 5 8 f1W ++ mkPacket 5 8 f2W] =
      ⟨.ok (finalize [0, 1] ((f1W.map (rowVal [0, 1])).take 1)),
        mkPacket 5 8 f2W, []⟩) ∧
    (get_data 3 [0, 1] [mkPacket 5 8 f1W ++ mkPacket 5 8 f2W] =
      ⟨.ok (finalize [0, 1] (f1W.map (rowVal [0, 1]) ++
          (f2W.map (rowVal [0, 1])).take (3 - f1W.length))), [], []⟩) := by
  refine ⟨?_, ?_⟩
  · exact (c7_truncation_and_spanning [0, 1] 5 8 f1W f2W 1 (by decide) (by decide)
      (by decide) (by decide) (by decide) (by decide) (by decide) (by decide)
      (by decide) (by decide)).1 (by decide)
  · exact (c7_truncation_and_spanning [0, 1] 5 8 f1W f2W 3 (by decide) (by decide)
      (by decide) (by decide) (by decide) (by decide) (by decide) (by decide)
      (by decide) (by decide)).2 (by decide) (by decide)

theorem prefix_take_eq {a b c : List Nat} (h : a ++ b = c) {k : Nat}
    (hk : k ≤ a.length) : a.take k = c.take k := by
  rw [← h]
  exact (List.take_append_of_le_length hk).symm

theorem prefix_split {a b p rest : List Nat} (h : a ++ b = p ++ rest)
    (hle : p.length ≤ a.length) :
    a = p ++ a.drop p.length ∧ a.drop p.length ++ b = rest := by
  have h1 : a.take p.length = p := by
    have := congrArg (List.take p.length) h
    rw [List.take_append_of_le_length hle, List.take_left] at this
    exact this
  constructor
  · conv_lhs => rw [← List.take_append_drop p.length a]
    rw [h1]
  · have h2 := congrArg (List.drop p.length) h
    rw [List.drop_append_of_le_length hle, List.drop_left] at h2
    exact h2

/-- One loop iteration of `get_data` on a stream whose unconsumed bytes form
one complete packet `p` followed by `rest`, for an arbitrary buffer/chunk
split of those bytes: the iteration consumes exactly `p` and the remaining
unconsumed bytes are exactly `rest`. -/
theorem getDataLoop_step_stream
    (n : Nat) (channels : List Nat) (fuel : Nat) (data : List (List Int))
    (received : Nat) (buf : List Nat) (chunks : List (List Nat))
    (p rest : List Nat)
    (hrec : received < n)
    (hp : IsPacket p)
    (hchk : ¬ (inspect_header p).nrChannels < maxList channels + 1)
    (hjoin : buf ++ chunks.flatten = p ++ rest) :
    ∃ (buf2 : List Nat) (ch2 : List (List Nat)),
      buf2 ++ ch2.flatten = rest ∧
      getDataLoop n channels (fuel + 1) data received buf chunks =
        (match procFrames channels (p.drop 32) (inspect_header p).bytesPerFrame n
            (List.range (inspect_header p).nrFrames.toNat) data received with
         | .error e => ⟨.error e, p ++ buf2, ch2⟩
         | .ok pr => getDataLoop n channels fuel pr.1 pr.2 buf2 ch2) := by
  obtain ⟨hpsz0, hplen⟩ := hp
  have hplen32 : 32 ≤ p.length := by omega
  have hTlen : buf.length + chunks.flatten.length = p.length + rest.length := by
    have := congrArg List.length hjoin
    simpa [List.length_append] using this
  have hf1 : (fill 32 buf chunks).1 = true :=
    fill_fst_true 32 chunks buf (by push_cast; omega)
  have hjoin1 : (fill 32 buf chunks).2.1 ++ ((fill 32 buf chunks).2.2).flatten =
      p ++ rest := (fill_join 32 chunks buf).trans hjoin
  have hlen1 : (32 : Int) ≤ (fill 32 buf chunks).2.1.length :=
    fill_true_len 32 chunks buf hf1
  have hhd1 : inspect_header (fill 32 buf chunks).2.1 = inspect_header p := by
    apply inspect_header_congr
    rw [prefix_take_eq hjoin1 (by omega)]
    exact List.take_append_of_le_length hplen32
  have hlen1T : (fill 32 buf chunks).2.1.length +
      ((fill 32 buf chunks).2.2).flatten.length = p.length + rest.length := by
    have := congrArg List.length hjoin1
    simpa [List.length_append] using this
  rcases hr2 : fill (32 + (inspect_header p).payloadSize)
      (fill 32 buf chunks).2.1 (fill 32 buf chunks).2.2 with ⟨b2, buf2, ch2⟩
  have hf2 : b2 = true := by
    have := fill_fst_true (32 + (inspect_header p).payloadSize)
      (fill 32 buf chunks).2.2 (fill 32 buf chunks).2.1 (by push_cast; omega)
    rw [hr2] at this
    exact this
  subst hf2
  have hjoin2 : buf2 ++ ch2.flatten = p ++ rest := by
    have := (fill_join (32 + (inspect_header p).payloadSize)
      (fill 32 buf chunks).2.2 (fill 32 buf chunks).2.1).trans hjoin1
    rw [hr2] at this
    exact this
  have hlen2 : (32 + (inspect_header p).payloadSize : Int) ≤ buf2.length := by
    have h := fill_true_len (32 + (inspect_header p).payloadSize)
      (fill 32 buf chunks).2.2 (fill 32 buf chunks).2.1 (by rw [hr2])
    rw [hr2] at h
    exact h
  obtain ⟨hbuf2eq, hrest⟩ := prefix_split hjoin2 (by omega)
  refine ⟨buf2.drop p.length, ch2, hrest, ?_⟩
  have hslice : pySlice buf2 32 (32 + (inspect_header p).payloadSize) =
      p.drop 32 := by
    conv_lhs => rw [hbuf2eq]
    exact pySlice_packet hplen32 hplen
  have hfrom : pySliceFrom buf2 (32 + (inspect_header p).payloadSize) =
      buf2.drop p.length := by
    conv_lhs => rw [hbuf2eq]
    exact pySliceFrom_packet hplen32 hplen
  simp only [getDataLoop, if_pos hrec, hf1, if_true, hhd1, if_neg hchk, hr2, hslice,
    hfrom]
  cases procFrames channels (p.drop 32) (inspect_header p).bytesPerFrame n
      (List.range (inspect_header p).nrFrames.toNat) data received with
  | error e =>
    show GDOut.mk _ buf2 ch2 = GDOut.mk _ (p ++ buf2.drop p.length) ch2
    rw [← hbuf2eq]
  | ok pr =>
    cases pr
    rfl

theorem sum_length_singletons : ∀ bs : List Nat,
    ((bs.map (fun b => [b])).map List.length).sum = bs.length := by
  intro bs
  induction bs with
  | nil => rfl
  | cons x xs ihx =>
    simp only [List.map_cons, List.sum_cons, List.length_cons, List.length_nil]
    rw [ihx]
    omega

theorem flatten_singletons : ∀ bs : List Nat, (bs.map (fun b => [b])).flatten = bs := by
  intro bs
  induction bs with
  | nil => rfl
  | cons x xs ihx => simp [ihx]

/-- For a stream that is a concatenation of complete packets, the result of
the acquisition loop depends only on the concatenated unconsumed bytes, not
on how they are split between the buffer and the pending chunks. -/
theorem getDataLoop_result_chunk_invariant (n : Nat) (channels : List Nat) :
    ∀ (fuel : Nat) (T : List Nat), IsPacketStream T →
    ∀ (data : List (List Int)) (received : Nat)
      (bufA : List Nat) (chunksA : List (List Nat))
      (bufB : List Nat) (chunksB : List (List Nat)),
      bufA ++ chunksA.flatten = T → bufB ++ chunksB.flatten = T →
      (getDataLoop n channels fuel data received bufA chunksA).result =
        (getDataLoop n channels fuel data received bufB chunksB).result := by
  intro fuel
  induction fuel with
  | zero =>
    intro T hT data received bufA chunksA bufB chunksB hA hB
    rfl
  | succ fuel ih =>
    intro T hT data received bufA chunksA bufB chunksB hA hB
    have hlenA : bufA.length + chunksA.flatten.length = T.length := by
      have := congrArg List.length hA
      simpa [List.length_append] using this
    have hlenB : bufB.length + chunksB.flatten.length = T.length := by
      have := congrArg List.length hB
      simpa [List.length_append] using this
    by_cases hrec : received < n
    · by_cases h32 : 32 ≤ T.length
      · cases hT with
        | nil => exact absurd h32 (by decide)
        | cons p rest hp hrest =>
          by_cases hchk : (inspect_header p).nrChannels < maxList channels + 1
          · -- both sides fail the channel check
            have hfA : (fill 32 bufA chunksA).1 = true :=
              fill_fst_true 32 chunksA bufA (by push_cast; omega)
            have hfB : (fill 32 bufB chunksB).1 = true :=
              fill_fst_true 32 chunksB bufB (by push_cast; omega)
            have hplen32 : 32 ≤ p.length := by
              obtain ⟨hpsz0, hplen⟩ := hp
              omega
            have hhdA : inspect_header (fill 32 bufA chunksA).2.1 =
                inspect_header p := by
              apply inspect_header_congr
              rw [prefix_take_eq ((fill_join 32 chunksA bufA).trans hA)
                (by have := fill_true_len 32 chunksA bufA hfA; omega)]
              exact List.take_append_of_le_length hplen32
            have hhdB : inspect_header (fill 32 bufB chunksB).2.1 =
                inspect_header p := by
              apply inspect_header_congr
              rw [prefix_take_eq ((fill_join 32 chunksB bufB).trans hB)
                (by have := fill_true_len 32 chunksB bufB hfB; omega)]
              exact List.take_append_of_le_length hplen32
            simp only [getDataLoop, if_pos hrec, hfA, hfB, if_true, hhdA, hhdB,
              if_pos hchk]
          · -- both sides consume the packet p
            obtain ⟨bA, cA, hjA, heqA⟩ := getDataLoop_step_stream n channels fuel
              data received bufA chunksA p rest hrec hp hchk hA
            obtain ⟨bB, cB, hjB, heqB⟩ := getDataLoop_step_stream n channels fuel
              data received bufB chunksB p rest hrec hp hchk hB
            rw [heqA, heqB]
            cases hpf : procFrames channels (p.drop 32)
                (inspect_header p).bytesPerFrame n
                (List.range (inspect_header p).nrFrames.toNat) data received with
            | error e => rfl
            | ok pr =>
              cases pr with
              | mk d2 r2 => exact ih rest hrest d2 r2 bA cA bB cB hjA hjB
      · -- both sides time out before a header is complete
        have hfA : (fill 32 bufA chunksA).1 = false :=
          fill_fst_false 32 chunksA bufA (by push_cast; omega)
        have hfB : (fill 32 bufB chunksB).1 = false :=
          fill_fst_false 32 chunksB bufB (by push_cast; omega)
        simp only [getDataLoop, if_pos hrec, hfA, hfB, Bool.false_eq_true, if_false]
    · simp only [getDataLoop, if_neg hrec]

/-- Claim C3: for every byte stream consisting of complete header+payload
packets and every request, `get_data` produces the same result whether the
reader delivers the stream one byte per `recv` call or all in a single
chunk: chunk boundaries never affect the outcome. -/
theorem c3_chunk_boundaries_irrelevant (bs : List Nat) (n : Nat)
    (channels : List Nat) (hbs : IsPacketStream bs) :
    (get_data n channels (bs.map (fun b => [b]))).result =
      (get_data n channels [bs]).result := by
  have hsum : ((bs.map (fun b => [b])).map List.length).sum = bs.length :=
    sum_length_singletons bs
  have hflatA : (bs.map (fun b => [b])).flatten = bs := flatten_singletons bs
  unfold get_data defaultFuel
  rw [hsum]
  have hsum2 : (([bs] : List (List Nat)).map List.length).sum = bs.length := by
    simp
  rw [hsum2]
  exact getDataLoop_result_chunk_invariant n channels (n + bs.length + 2) bs hbs
    (List.replicate n (List.replicate channels.length 0)) 0
    [] (bs.map (fun b => [b])) [] [bs]
    (by rw [List.nil_append, hflatA]) (by simp)

/-- Witness for C3 at a concrete input: the 56-byte packet with the header
shorts placed where the code reads them, delivered byte by byte versus in
one chunk. -/
theorem c3_witness :
    (get_data 2 [0, 1] ((mkPacket 5 8 f1W).map (fun b => [b]))).result =
      (get_data 2 [0, 1] [mkPacket 5 8 f1W]).result :=
  c3_chunk_boundaries_irrelevant (mkPacket 5 8 f1W) 2 [0, 1]
    (by
      have h : IsPacket (mkPacket 5 8 f1W) := by decide
      have := IsPacketStream.cons (mkPacket 5 8 f1W) [] h IsPacketStream.nil
      simpa using this)

/-- Claim C1: on the packet laid out per the documented wire format (frame
count 3 at offset 24, bytes per frame 8 at offset 26, three 8-byte frames),
requesting 2 samples on channels [0, 1] does NOT return the batch
[(10,20), (11,21)]: because `inspect_header` reads the two shorts swapped,
`get_data` takes 8 frames of 3 bytes and the very first
`np.frombuffer` call fails (3 bytes is not a multiple of the 4-byte item
size).  This theorem records the code behavior at the failing input of the
code-bug report. -/
theorem c1_getData_valueError_on_documented_packet :
    get_data 2 [0, 1] [pktDoc] = ⟨.error .valueError, pktDoc, []⟩ := by
  decide

/-- Claim C2: `inspect_header` at a 32-byte header whose documented fields
are frame count 3 (offset 24) and bytes per frame 8 (offset 26) returns
frame count 8 and bytes per frame 3 — the two uint16 header fields are read
swapped, contradicting the documented layout the claim states.  This theorem
records the code behavior at the failing input of the code-bug report. -/
theorem c2_inspectHeader_swaps_frame_fields :
    inspect_header pktDoc = ⟨2, 8, 3, 24⟩ ∧ (8 : Int) ≠ 3 := by
  exact ⟨by decide, by decide⟩

/-- Claim C5 counterexample: with no data available at all (immediate read
timeout, zero samples collected), `get_data` requesting 2 samples on 2
channels does not return the empty collected-so-far batch: it returns the
full preallocated 2-row zero array. -/
theorem c5_counter_timeout_returns_prealloc :
    get_data 2 [0, 1] [] = ⟨.ok (.matrix [[0, 0], [0, 0]]), [], []⟩ ∧
      [[0, 0], [0, 0]] ≠ ([] : List (List Int)) := by
  exact ⟨by decide, by decide⟩

/-- Claim C8 counterexample: on the timeout return path with exactly one
requested channel, `get_data` returns the matrix orientation (a sequence of
length-1 rows), not a flat sequence of scalars. -/
theorem c8_counter_timeout_path_not_flat :
    (get_data 2 [0] []).result = .ok (.matrix [[0], [0]]) ∧
      isFlatReturn (.matrix [[0], [0]]) = false := by
  exact ⟨by decide, by decide⟩

/-- Claim C6 counterexample: a raw reply with a LEADING line feed.  The
claimed pipeline (strip trailing CR/LF only) rejects it as malformed, but the
code strips CR/LF from both ends (`str.strip`) and accepts it. -/
theorem c6_counter_leading_crlf :
    commandClassify "A".toList ("\n$AOK".toList) = .ok [] ∧
      claimClassify "A".toList ("\n$AOK".toList) = .error .malformed := by
  exact ⟨by decide, by decide⟩

/-- Claim C9: requesting 0 samples returns immediately with an empty batch
(zero samples, in the orientation dictated by the channel count), an empty
buffer, and the chunk list untouched: the reader is never invoked and no
transport bytes are consumed. -/
theorem c9_zero_request_reads_nothing (channels : List Nat) (chunks : List (List Nat)) :
    get_data 0 channels chunks =
      ⟨.ok (if channels.length = 1 then .flat []
            else .matrix (List.replicate channels.length [])), [], chunks⟩ := by
  obtain ⟨f, hf⟩ : ∃ f, defaultFuel 0 chunks = f + 1 :=
    ⟨(chunks.map List.length).sum + 1, by simp [defaultFuel]⟩
  unfold get_data
  rw [hf]
  simp only [getDataLoop, Nat.lt_irrefl, if_false, List.replicate]
  unfold finalize transposeW
  split
  · simp
  · simp [List.map_const']

/-- Claim C6 (amended): the response classification of
`ControlSocket.command` coincides, for every sent command and every raw
reply, with the claimed pipeline amended so that CR/LF characters are
stripped from BOTH ends of the raw reply (Python `strip` semantics) rather
than from the tail only: prefix `$` + command required (else malformed),
then in order a trailing `OK` success, the two sentinel error literals, and
otherwise malformed — partial text is never returned silently. -/
theorem c6_amended_classification (com raw : List Char) :
    commandClassify com raw = amendedClassify com raw := rfl

/-- Claim C10: for every command string, if the opportunistic read returns
zero bytes, `command` fails with the unexpected-response classification
(`malformed`), not `connectionError`, and never returns a success payload. -/
theorem c10_empty_read_is_malformed (com : List Char) :
    command com (some []) = .error .malformed := by
  rfl

end Capa
